import Mathlib

/-!
Verification of the olympian database-migration library: a shallow embedding
of its schema descriptor, dialect compiler (Postgres / MySQL / SQLite) and
migration orchestrator, together with theorems settling the specification's
claims about them.

Conventions of the embedding:
* Go strings are Lean `String`s; `strings.HasPrefix`/`strings.TrimPrefix` are
  modelled on the underlying character lists (`hasPre` / `trimPre`), and
  `strings.Join` as `goJoin`.
* The migrations ledger table `olympian_migrations` is modelled as a list of
  `LedgerEntry` in insertion order (the auto-increment `id` order), so
  `ORDER BY id DESC` is `List.reverse`.
* A migration unit's `Up`/`Down` functions are opaque effects; we model each
  by its outcome (`none` = returns nil, `some e` = returns error `e`) and
  record every invocation in an execution trace.
* The SQL connection always succeeds on the ledger's own reads/writes; the
  claims under study are about orchestration order, not transport failures.
-/

/-- A column descriptor: the data fields of the Go `Column` struct. -/
structure Column where
  name : String
  dataType : String
  nullable : Bool := false
  primary : Bool := false
  unique : Bool := false
  defaultValue : Option String := none
  afterColumn : Option String := none
  autoIncrement : Bool := false
deriving DecidableEq, Repr

/-- A foreign-key constraint: the data fields of the Go `ForeignKey` struct. -/
structure ForeignKey where
  column : String
  refTable : String := ""
  refColumn : String := ""
  onDelete : String := ""
  onUpdate : String := ""
deriving DecidableEq, Repr

/-- The data fields of `TableBuilder` that the dialect compiler reads
(`db`, `dialect`, `operation` are runtime plumbing, not rendered). -/
structure TableBuilder where
  tableName : String
  columns : List Column := []
  foreignKeys : List ForeignKey := []
deriving DecidableEq, Repr

/-- The `dataType` string produced by `Decimal(name, p, s)`:
`fmt.Sprintf("decimal(%d,%d)", precision, scale)`. -/
def decimalStr (precision scale : Nat) : String :=
  "decimal(" ++ toString precision ++ "," ++ toString scale ++ ")"

/-- Go `strings.HasPrefix s pre`, on the character lists. -/
def hasPre (s pre : String) : Bool :=
  pre.data.isPrefixOf s.data

/-- Go `strings.TrimPrefix s pre`: drops `pre` from the front of `s` when it
is a prefix, otherwise returns `s` unchanged. -/
def trimPre (s pre : String) : String :=
  if pre.data.isPrefixOf s.data then ⟨s.data.drop pre.length⟩ else s

/-- Go `strings.Join elems sep`. -/
def goJoin (elems : List String) (sep : String) : String :=
  match elems with
  | [] => ""
  | e :: rest => rest.foldl (fun acc x => acc ++ sep ++ x) e

/-- The three supported SQL dialects (`PostgresDialect`, `MySQLDialect`,
`SQLiteDialect` in the source). -/
inductive Dialect where
  | postgres
  | mysql
  | sqlite
deriving DecidableEq, Repr

/-- `(*PostgresDialect).GetDataType`. -/
def PostgresDialect.GetDataType (col : Column) : String :=
  match col.dataType with
  | "uuid" => "UUID"
  | "string" => "VARCHAR(255)"
  | "text" => "TEXT"
  | "integer" => if col.autoIncrement then "SERIAL" else "INTEGER"
  | "bigint" => if col.autoIncrement then "BIGSERIAL" else "BIGINT"
  | "boolean" => "BOOLEAN"
  | "timestamp" => "TIMESTAMP"
  | "date" => "DATE"
  | "json" => "JSONB"
  | other =>
    if hasPre other "decimal" then "DECIMAL" ++ trimPre other "decimal"
    else other

/-- `(*MySQLDialect).GetDataType`. -/
def MySQLDialect.GetDataType (col : Column) : String :=
  match col.dataType with
  | "uuid" => "CHAR(36)"
  | "string" => "VARCHAR(255)"
  | "text" => "TEXT"
  | "integer" => "INT"
  | "bigint" => "BIGINT"
  | "boolean" => "TINYINT(1)"
  | "timestamp" => "TIMESTAMP"
  | "date" => "DATE"
  | "json" => "JSON"
  | other =>
    if hasPre other "decimal" then "DECIMAL" ++ trimPre other "decimal"
    else other

/-- `(*SQLiteDialect).GetDataType`.  Note the default branch: SQLite maps any
decimal-prefixed type to `REAL` and every other unrecognized type to `TEXT`
(no pass-through). -/
def SQLiteDialect.GetDataType (col : Column) : String :=
  match col.dataType with
  | "uuid" | "string" => "TEXT"
  | "text" => "TEXT"
  | "integer" => "INTEGER"
  | "bigint" => "INTEGER"
  | "boolean" => "INTEGER"
  | "timestamp" | "date" => "TEXT"
  | "json" => "TEXT"
  | other =>
    if hasPre other "decimal" then "REAL"
    else "TEXT"

/-- Dispatch `GetDataType` over the dialect (the Go interface method). -/
def Dialect.GetDataType : Dialect → Column → String
  | .postgres => PostgresDialect.GetDataType
  | .mysql => MySQLDialect.GetDataType
  | .sqlite => SQLiteDialect.GetDataType

/-- The fixed MySQL reserved-word set `mysqlReservedKeywords`. -/
def mysqlReservedKeywords : List String :=
  ["limit", "order", "group", "key", "index",
   "type", "desc", "asc", "primary", "foreign",
   "references", "constraint", "table", "column",
   "select", "from", "where", "join", "on",
   "and", "or", "not", "like", "in",
   "between", "is", "null", "default", "unique",
   "check", "cascade", "restrict", "set"]

/-- `escapeColumnName(name, dialect)`: back-quotes reserved words for MySQL,
identity for the other dialects. -/
def escapeColumnName (name : String) (dialect : Dialect) : String :=
  match dialect with
  | .mysql =>
    if mysqlReservedKeywords.contains name.toLower then "`" ++ name ++ "`"
    else name
  | _ => name

/-- The `DEFAULT` fragment appended to a column definition when
`col.defaultValue != nil`; empty otherwise.  This block is repeated verbatim
in every dialect's `BuildCreateTable`/`BuildModifyTable` in the source:
unquoted for `boolean`/`integer`/`bigint`, single-quoted otherwise. -/
def defaultSql (col : Column) : String :=
  match col.defaultValue with
  | none => ""
  | some v =>
    if col.dataType == "boolean" || col.dataType == "integer" || col.dataType == "bigint" then
      " DEFAULT " ++ v
    else
      " DEFAULT '" ++ v ++ "'"

/-- One column definition inside `(*PostgresDialect).BuildCreateTable`. -/
def PostgresDialect.columnDef (col : Column) : String :=
  "  " ++ col.name ++ " " ++ PostgresDialect.GetDataType col
    ++ (if col.primary then " PRIMARY KEY" else "")
    ++ (if !col.nullable then " NOT NULL" else "")
    ++ (if col.unique && !col.primary then " UNIQUE" else "")
    ++ defaultSql col

/-- One column definition inside `(*MySQLDialect).BuildCreateTable`. -/
def MySQLDialect.columnDef (col : Column) : String :=
  "  " ++ escapeColumnName col.name .mysql ++ " " ++ MySQLDialect.GetDataType col
    ++ (if col.autoIncrement then " AUTO_INCREMENT" else "")
    ++ (if col.primary then " PRIMARY KEY" else "")
    ++ (if !col.nullable then " NOT NULL" else "")
    ++ (if col.unique && !col.primary then " UNIQUE" else "")
    ++ defaultSql col

/-- One column definition inside `(*SQLiteDialect).BuildCreateTable`. -/
def SQLiteDialect.columnDef (col : Column) : String :=
  "  " ++ col.name ++ " " ++ SQLiteDialect.GetDataType col
    ++ (if col.primary then
          " PRIMARY KEY" ++ (if col.autoIncrement then " AUTOINCREMENT" else "")
        else "")
    ++ (if !col.nullable then " NOT NULL" else "")
    ++ (if col.unique && !col.primary then " UNIQUE" else "")
    ++ defaultSql col

/-- The `ON DELETE` / `ON UPDATE` suffix of a foreign-key clause. -/
def fkActions (fk : ForeignKey) : String :=
  (if fk.onDelete != "" then " ON DELETE " ++ fk.onDelete.toUpper else "")
    ++ (if fk.onUpdate != "" then " ON UPDATE " ++ fk.onUpdate.toUpper else "")

/-- A named foreign-key clause (Postgres and MySQL `BuildCreateTable`). -/
def namedFkDef (tableName : String) (fk : ForeignKey) : String :=
  "  CONSTRAINT fk_" ++ tableName ++ "_" ++ fk.column
    ++ " FOREIGN KEY (" ++ fk.column ++ ") REFERENCES "
    ++ fk.refTable ++ "(" ++ fk.refColumn ++ ")"
    ++ fkActions fk

/-- An unnamed foreign-key clause (SQLite `BuildCreateTable`). -/
def plainFkDef (fk : ForeignKey) : String :=
  "  FOREIGN KEY (" ++ fk.column ++ ") REFERENCES "
    ++ fk.refTable ++ "(" ++ fk.refColumn ++ ")"
    ++ fkActions fk

/-- `BuildCreateTable` for each dialect: header line, comma-joined column and
foreign-key definitions, close line; the three parts joined by newlines. -/
def Dialect.BuildCreateTable (d : Dialect) (tb : TableBuilder) : String :=
  let columnDefs : List String :=
    match d with
    | .postgres => tb.columns.map PostgresDialect.columnDef
        ++ tb.foreignKeys.map (namedFkDef tb.tableName)
    | .mysql => tb.columns.map MySQLDialect.columnDef
        ++ tb.foreignKeys.map (namedFkDef tb.tableName)
    | .sqlite => tb.columns.map SQLiteDialect.columnDef
        ++ tb.foreignKeys.map plainFkDef
  let closing : String :=
    match d with
    | .mysql => ") ENGINE=InnoDB DEFAULT CHARSET=utf8mb4;"
    | _ => ");"
  goJoin ["CREATE TABLE IF NOT EXISTS " ++ tb.tableName ++ " (",
          goJoin columnDefs ",\n",
          closing] "\n"

/-- One `ALTER TABLE ... ADD COLUMN` statement of `BuildModifyTable`. -/
def Dialect.modifyStmt (d : Dialect) (tableName : String) (col : Column) : String :=
  "ALTER TABLE " ++ tableName ++ " ADD COLUMN "
    ++ escapeColumnName col.name d ++ " " ++ d.GetDataType col
    ++ (if !col.nullable then " NOT NULL" else "")
    ++ defaultSql col
    ++ (match d, col.afterColumn with
        | .mysql, some a => " AFTER " ++ a
        | _, _ => "")

/-- `BuildModifyTable`: one ADD COLUMN statement per column, in order. -/
def Dialect.BuildModifyTable (d : Dialect) (tb : TableBuilder) : List String :=
  tb.columns.map (d.modifyStmt tb.tableName)

/-- `BuildDropTable` (identical across the three dialects). -/
def Dialect.BuildDropTable (_ : Dialect) (tableName : String) : String :=
  "DROP TABLE IF EXISTS " ++ tableName

/-- `BuildDropColumn` (identical across the three dialects). -/
def Dialect.BuildDropColumn (_ : Dialect) (tableName columnName : String) : String :=
  "ALTER TABLE " ++ tableName ++ " DROP COLUMN " ++ columnName

/-- `s` contains `sub` as a contiguous substring. -/
def containsSub (s sub : String) : Prop :=
  ∃ pre post, s = pre ++ sub ++ post

/-! ### The declarative builder DSL

In Go, the column-declaration functions communicate with the surrounding
`Create`/`Modify` callback through the package-level pointer
`currentBuilder *TableBuilder`, and a `ColumnBuilder` holds a `*Column`
aliased with the slice entry appended to that builder.  We model the mutable
package state explicitly: a heap of `Column`/`ForeignKey` objects (addresses
are list indices) plus the optional current builder, whose descriptor refers
to heap addresses, so Go's pointer aliasing is preserved. -/

/-- The `TableBuilder` object referred to by `currentBuilder`, with its
column/foreign-key slices holding heap addresses. -/
structure BuilderRef where
  tableName : String
  columns : List Nat := []
  foreignKeys : List Nat := []
deriving DecidableEq, Repr

/-- The package-level mutable state seen by the declaration functions:
`currentBuilder` (possibly nil) and the heaps of allocated objects. -/
structure DSLState where
  currentBuilder : Option BuilderRef := none
  colHeap : List Column := []
  fkHeap : List ForeignKey := []
deriving DecidableEq, Repr

/-- The fresh `Column` literal every declaration function allocates
(`nullable: false`, everything else zero-valued). -/
def newCol (name dataType : String) : Column :=
  { name := name, dataType := dataType, nullable := false }

/-- Allocate a column on the heap and, exactly when `currentBuilder != nil`,
append its address to the current builder's `columns`; return the address
(the `ColumnBuilder` handle). -/
def pushCol (col : Column) (st : DSLState) : Nat × DSLState :=
  (st.colHeap.length,
   { st with
       colHeap := st.colHeap ++ [col]
       currentBuilder := st.currentBuilder.map fun b =>
         { b with columns := b.columns ++ [st.colHeap.length] } })

/-- `Uuid(name)`. -/
def Uuid (name : String) (st : DSLState) : Nat × DSLState :=
  pushCol (newCol name "uuid") st

/-- `String(name)` (renamed: `String` is taken in Lean). -/
def StringF (name : String) (st : DSLState) : Nat × DSLState :=
  pushCol (newCol name "string") st

/-- `Text(name)`. -/
def Text (name : String) (st : DSLState) : Nat × DSLState :=
  pushCol (newCol name "text") st

/-- `Integer(name)`. -/
def Integer (name : String) (st : DSLState) : Nat × DSLState :=
  pushCol (newCol name "integer") st

/-- `BigInteger(name)` (its `dataType` is the string `"bigint"`). -/
def BigInteger (name : String) (st : DSLState) : Nat × DSLState :=
  pushCol (newCol name "bigint") st

/-- `Boolean(name)`. -/
def Boolean (name : String) (st : DSLState) : Nat × DSLState :=
  pushCol (newCol name "boolean") st

/-- `Decimal(name, precision, scale)`. -/
def Decimal (name : String) (precision scale : Nat) (st : DSLState) : Nat × DSLState :=
  pushCol (newCol name (decimalStr precision scale)) st

/-- `Timestamp(name)`. -/
def Timestamp (name : String) (st : DSLState) : Nat × DSLState :=
  pushCol (newCol name "timestamp") st

/-- `Date(name)`. -/
def Date (name : String) (st : DSLState) : Nat × DSLState :=
  pushCol (newCol name "date") st

/-- `Json(name)`. -/
def Json (name : String) (st : DSLState) : Nat × DSLState :=
  pushCol (newCol name "json") st

/-- `(*ColumnBuilder).Nullable()`: mutates the pointed-to column in place. -/
def Nullable (handle : Nat) (st : DSLState) : Nat × DSLState :=
  (handle,
   { st with colHeap := List.modify (fun c => { c with nullable := true }) handle st.colHeap })

/-- `Timestamps()`: `Timestamp("created_at").Nullable()` then
`Timestamp("updated_at").Nullable()`. -/
def Timestamps (st : DSLState) : DSLState :=
  let r1 := Timestamp "created_at" st
  let st1 := (Nullable r1.1 r1.2).2
  let r2 := Timestamp "updated_at" st1
  (Nullable r2.1 r2.2).2

/-- `SoftDeletes()`: `Timestamp("deleted_at").Nullable()`. -/
def SoftDeletes (st : DSLState) : DSLState :=
  let r := Timestamp "deleted_at" st
  (Nullable r.1 r.2).2

/-- `Foreign(columnName)`: allocates a `ForeignKey` and, exactly when
`currentBuilder != nil`, appends its address to the builder's
`foreignKeys`; returns the address (the `ForeignKeyBuilder` handle). -/
def Foreign (columnName : String) (st : DSLState) : Nat × DSLState :=
  (st.fkHeap.length,
   { st with
       fkHeap := st.fkHeap ++ [{ column := columnName }]
       currentBuilder := st.currentBuilder.map fun b =>
         { b with foreignKeys := b.foreignKeys ++ [st.fkHeap.length] } })

/-! ### The migration ledger and orchestrator -/

/-- One row of the `olympian_migrations` table (the `id` column is the row's
position in the list, `executed_at` is not observed by any operation). -/
structure LedgerEntry where
  migration : String
  batch : Nat
deriving DecidableEq, Repr

/-- The ledger table, in insertion (auto-increment `id`) order. -/
abbrev Ledger := List LedgerEntry

/-- A migration unit.  `upErr`/`downErr` are the outcomes of invoking the
unit's `Up`/`Down` function: `none` means it returns nil, `some e` that it
returns the error `e`. -/
structure Migration where
  Name : String
  upErr : Option String := none
  downErr : Option String := none
deriving DecidableEq, Repr

/-- The names column of the ledger; `GetExecutedMigrations` is the set of
these names. -/
def ledgerNames (led : Ledger) : List String :=
  led.map (·.migration)

/-- `GetLastBatch`: `SELECT MAX(batch)`, `0` on an empty table. -/
def GetLastBatch (led : Ledger) : Nat :=
  led.foldl (fun acc e => max acc e.batch) 0

/-- `RecordMigration(name, batch)`: inserts a row (fresh auto-increment id,
hence at the end). -/
def RecordMigration (led : Ledger) (name : String) (batch : Nat) : Ledger :=
  led ++ [⟨name, batch⟩]

/-- `RemoveMigration(name)`: `DELETE ... WHERE migration = name`. -/
def RemoveMigration (led : Ledger) (name : String) : Ledger :=
  led.filter (fun e => e.migration != name)

/-- `GetMigrationsFromBatch(batch)`: the batch's migration names in
descending id order (reverse insertion order). -/
def GetMigrationsFromBatch (led : Ledger) (batch : Nat) : List String :=
  ((led.filter (fun e => e.batch == batch)).reverse).map (·.migration)

/-- The pending set of a `Migrate` call: units whose name is absent from the
ledger, in input order. -/
def pendingOf (units : List Migration) (led : Ledger) : List Migration :=
  units.filter (fun m => !((ledgerNames led).contains m.Name))

/-- Order on names, decided on the character lists (Go compares strings
byte-wise, which for UTF-8 agrees with this code-point order); this
instance, unlike `String.decidableLE`, evaluates inside the kernel. -/
def decStrLE (a b : String) : Decidable (a ≤ b) :=
  decidable_of_iff (a.toList ≤ b.toList) String.le_iff_toList_le.symm

/-- `sort.Slice(pending, Name_i < Name_j)`: sorting by name.  For the
duplicate-free name lists the registry invariant guarantees, every sort by
name yields the same list, so an insertion sort stands in for Go's pdqsort. -/
def sortByName (l : List Migration) : List Migration :=
  @List.insertionSort Migration (fun a b => a.Name ≤ b.Name)
    (fun a b => decStrLE a.Name b.Name) l

/-- The observable outcome of an orchestrator call: the returned error (if
any), the final ledger table, and the trace of unit actions invoked, in
order (names of the `Up` resp. `Down` functions called). -/
structure MigResult where
  err : Option String
  ledger : Ledger
  trace : List String
deriving DecidableEq, Repr

/-- The `for _, migration := range pending` loop body of `Migrate`: invoke
`Up`; on error return the wrapped error at once, otherwise record the entry
with this call's batch number and continue. -/
def migrateLoop (batch : Nat) : List Migration → Ledger → List String → MigResult
  | [], led, tr => ⟨none, led, tr⟩
  | m :: rest, led, tr =>
    match m.upErr with
    | some e => ⟨some ("migration " ++ m.Name ++ " failed: " ++ e), led, tr ++ [m.Name]⟩
    | none => migrateLoop batch rest (RecordMigration led m.Name batch) (tr ++ [m.Name])

/-- `Migrate(migrations)`: compute `batch = lastBatch + 1` and the pending
set; a no-op when nothing is pending, otherwise run the sorted pending units
in order. -/
def Migrate (units : List Migration) (led : Ledger) : MigResult :=
  let batch := GetLastBatch led + 1
  let pending := pendingOf units led
  if pending.isEmpty then ⟨none, led, []⟩
  else migrateLoop batch (sortByName pending) led []

/-- The lookup in the `migrationMap` built by `Rollback`; a Go map literalizes
to last-occurrence-wins on duplicate names. -/
def lookupUnit (units : List Migration) (n : String) : Option Migration :=
  units.reverse.find? (fun m => m.Name == n)

/-- The `for _, name := range toRollback` loop body of `Rollback`: resolve
the recorded name (fatal error if no unit matches), invoke `Down` (wrapped
error on failure), then delete the ledger row. -/
def rollbackNames (units : List Migration) : List String → Ledger → List String → MigResult
  | [], led, tr => ⟨none, led, tr⟩
  | n :: rest, led, tr =>
    match lookupUnit units n with
    | none => ⟨some ("migration file not found: " ++ n), led, tr⟩
    | some m =>
      match m.downErr with
      | some e => ⟨some ("rollback " ++ n ++ " failed: " ++ e), led, tr ++ [n]⟩
      | none => rollbackNames units rest (RemoveMigration led n) (tr ++ [n])

/-- The `for i := 0; i < steps; i++` loop of `Rollback`: process batch
numbers downward from `lastBatch`, breaking when the batch number reaches 0;
an empty batch is skipped (`continue`). -/
def rollbackLoop (units : List Migration) : Nat → Nat → Ledger → List String → MigResult
  | 0, _, led, tr => ⟨none, led, tr⟩
  | _ + 1, 0, led, tr => ⟨none, led, tr⟩
  | steps + 1, batch + 1, led, tr =>
    let res := rollbackNames units (GetMigrationsFromBatch led (batch + 1)) led tr
    match res.err with
    | some e => ⟨some e, res.ledger, res.trace⟩
    | none => rollbackLoop units steps batch res.ledger res.trace

/-- The `if steps <= 0 { steps = 1 }` normalization at the top of
`Rollback`. -/
def stepsNorm (steps : Int) : Nat :=
  if steps ≤ 0 then 1 else steps.toNat

/-- `Rollback(migrations, steps)`: steps defaults to 1 when `steps <= 0`;
a no-op when `lastBatch == 0`. -/
def Rollback (units : List Migration) (steps : Int) (led : Ledger) : MigResult :=
  let lastBatch := GetLastBatch led
  if lastBatch = 0 then ⟨none, led, []⟩
  else rollbackLoop units (stepsNorm steps) lastBatch led []

/-- `Reset(migrations)`: a no-op when `lastBatch == 0`, otherwise
`Rollback(migrations, lastBatch)`. -/
def Reset (units : List Migration) (led : Ledger) : MigResult :=
  let lastBatch := GetLastBatch led
  if lastBatch = 0 then ⟨none, led, []⟩
  else Rollback units (lastBatch : Int) led

/-- An orchestrator call, for reasoning over operation sequences. -/
inductive MigOp where
  | migrate (units : List Migration)
  | rollback (units : List Migration) (steps : Int)
deriving DecidableEq, Repr

/-- The unit list an operation is called with. -/
def MigOp.units : MigOp → List Migration
  | .migrate u => u
  | .rollback u _ => u

/-- The ledger state after one orchestrator call. -/
def applyOp (led : Ledger) : MigOp → Ledger
  | .migrate u => (Migrate u led).ledger
  | .rollback u s => (Rollback u s led).ledger

/-- The ledger state after a sequence of orchestrator calls. -/
def applyOps (led : Ledger) (ops : List MigOp) : Ledger :=
  ops.foldl applyOp led

/-- Reference order of a rollback run: for each batch number from `b`
downward (at most `steps` of them, stopping above 0), that batch's recorded
names in reverse insertion order. -/
def rollbackSpecTrace (led : Ledger) : Nat → Nat → List String
  | 0, _ => []
  | _ + 1, 0 => []
  | steps + 1, batch + 1 =>
    GetMigrationsFromBatch led (batch + 1) ++ rollbackSpecTrace led steps batch

/-! ### String-level helper lemmas -/

theorem data_append (a b : String) : (a ++ b).data = a.data ++ b.data := by
  cases a; cases b; rfl

theorem str_ext {a b : String} (h : a.data = b.data) : a = b := by
  cases a; cases b; cases h; rfl

theorem append_empty (s : String) : s ++ "" = s := by
  apply str_ext; rw [data_append]; exact List.append_nil _

theorem empty_append (s : String) : "" ++ s = s := by
  apply str_ext; rw [data_append]; rfl

theorem strAppend_assoc (a b c : String) : (a ++ b) ++ c = a ++ (b ++ c) := by
  apply str_ext; simp [data_append]

theorem decimalStr_data (p s : Nat) :
    (decimalStr p s).data =
      'd' :: 'e' :: 'c' :: 'i' :: 'm' :: 'a' :: 'l' :: '(' ::
        ((toString p).data ++ ',' :: ((toString s).data ++ [')'])) := by
  simp [decimalStr, data_append]

theorem hasPre_decimalStr (p s : Nat) : hasPre (decimalStr p s) "decimal" = true := by
  simp [hasPre, decimalStr_data, List.isPrefixOf]

theorem trimPre_decimalStr (p s : Nat) :
    trimPre (decimalStr p s) "decimal" = "(" ++ toString p ++ "," ++ toString s ++ ")" := by
  have h := hasPre_decimalStr p s
  simp [hasPre] at h
  apply str_ext
  simp only [trimPre, h, if_true, decimalStr_data, show "decimal".length = 7 from rfl,
    List.drop_succ_cons, List.drop_zero, data_append]
  simp

theorem decimalStr_unrec (p s : Nat) :
    decimalStr p s ∉ (["uuid","string","text","integer","bigint","boolean","timestamp","date","json"] : List String) := by
  intro h
  have hd := decimalStr_data p s
  simp only [List.mem_cons, List.not_mem_nil, or_false] at h
  rcases h with h|h|h|h|h|h|h|h|h <;> rw [h] at hd <;> simp at hd

/-! ### `GetDataType` on unrecognized and decimal types -/

theorem pg_unrec (c : Column)
    (h : c.dataType ∉ (["uuid","string","text","integer","bigint","boolean","timestamp","date","json"] : List String)) :
    PostgresDialect.GetDataType c =
      if hasPre c.dataType "decimal" then "DECIMAL" ++ trimPre c.dataType "decimal"
      else c.dataType := by
  unfold PostgresDialect.GetDataType
  split <;> simp_all

theorem my_unrec (c : Column)
    (h : c.dataType ∉ (["uuid","string","text","integer","bigint","boolean","timestamp","date","json"] : List String)) :
    MySQLDialect.GetDataType c =
      if hasPre c.dataType "decimal" then "DECIMAL" ++ trimPre c.dataType "decimal"
      else c.dataType := by
  unfold MySQLDialect.GetDataType
  split <;> simp_all

theorem sl_unrec (c : Column)
    (h : c.dataType ∉ (["uuid","string","text","integer","bigint","boolean","timestamp","date","json"] : List String)) :
    SQLiteDialect.GetDataType c =
      if hasPre c.dataType "decimal" then "REAL" else "TEXT" := by
  unfold SQLiteDialect.GetDataType
  split <;> simp_all

theorem pg_decimal (c : Column) (p s : Nat) :
    PostgresDialect.GetDataType { c with dataType := decimalStr p s } =
      "DECIMAL(" ++ toString p ++ "," ++ toString s ++ ")" := by
  rw [pg_unrec _ (by simpa using decimalStr_unrec p s)]
  simp only [hasPre_decimalStr, trimPre_decimalStr, if_true]
  apply str_ext
  simp [data_append]

theorem my_decimal (c : Column) (p s : Nat) :
    MySQLDialect.GetDataType { c with dataType := decimalStr p s } =
      "DECIMAL(" ++ toString p ++ "," ++ toString s ++ ")" := by
  rw [my_unrec _ (by simpa using decimalStr_unrec p s)]
  simp only [hasPre_decimalStr, trimPre_decimalStr, if_true]
  apply str_ext
  simp [data_append]

theorem sl_decimal (c : Column) (p s : Nat) :
    SQLiteDialect.GetDataType { c with dataType := decimalStr p s } = "REAL" := by
  rw [sl_unrec _ (by simpa using decimalStr_unrec p s)]
  simp [hasPre_decimalStr]

/-- C1: for every recognized semantic column type (uuid, string, text,
integer, big-integer, boolean, decimal(p,s), timestamp, date, json) and for
each of the three dialects, `GetDataType` returns exactly the native type of
the spec's type-mapping table, including SERIAL (resp. BIGSERIAL) for an
auto-increment integer (resp. big-integer) column in Postgres.  The column's
remaining fields are arbitrary. -/
theorem getDataType_matches_type_table (c : Column) (p s : Nat) :
    (PostgresDialect.GetDataType { c with dataType := "uuid" } = "UUID"
      ∧ MySQLDialect.GetDataType { c with dataType := "uuid" } = "CHAR(36)"
      ∧ SQLiteDialect.GetDataType { c with dataType := "uuid" } = "TEXT")
    ∧ (PostgresDialect.GetDataType { c with dataType := "string" } = "VARCHAR(255)"
      ∧ MySQLDialect.GetDataType { c with dataType := "string" } = "VARCHAR(255)"
      ∧ SQLiteDialect.GetDataType { c with dataType := "string" } = "TEXT")
    ∧ (PostgresDialect.GetDataType { c with dataType := "text" } = "TEXT"
      ∧ MySQLDialect.GetDataType { c with dataType := "text" } = "TEXT"
      ∧ SQLiteDialect.GetDataType { c with dataType := "text" } = "TEXT")
    ∧ (PostgresDialect.GetDataType { c with dataType := "integer", autoIncrement := false } = "INTEGER"
      ∧ PostgresDialect.GetDataType { c with dataType := "integer", autoIncrement := true } = "SERIAL"
      ∧ MySQLDialect.GetDataType { c with dataType := "integer" } = "INT"
      ∧ SQLiteDialect.GetDataType { c with dataType := "integer" } = "INTEGER")
    ∧ (PostgresDialect.GetDataType { c with dataType := "bigint", autoIncrement := false } = "BIGINT"
      ∧ PostgresDialect.GetDataType { c with dataType := "bigint", autoIncrement := true } = "BIGSERIAL"
      ∧ MySQLDialect.GetDataType { c with dataType := "bigint" } = "BIGINT"
      ∧ SQLiteDialect.GetDataType { c with dataType := "bigint" } = "INTEGER")
    ∧ (PostgresDialect.GetDataType { c with dataType := "boolean" } = "BOOLEAN"
      ∧ MySQLDialect.GetDataType { c with dataType := "boolean" } = "TINYINT(1)"
      ∧ SQLiteDialect.GetDataType { c with dataType := "boolean" } = "INTEGER")
    ∧ (PostgresDialect.GetDataType { c with dataType := decimalStr p s } =
          "DECIMAL(" ++ toString p ++ "," ++ toString s ++ ")"
      ∧ MySQLDialect.GetDataType { c with dataType := decimalStr p s } =
          "DECIMAL(" ++ toString p ++ "," ++ toString s ++ ")"
      ∧ SQLiteDialect.GetDataType { c with dataType := decimalStr p s } = "REAL")
    ∧ (PostgresDialect.GetDataType { c with dataType := "timestamp" } = "TIMESTAMP"
      ∧ MySQLDialect.GetDataType { c with dataType := "timestamp" } = "TIMESTAMP"
      ∧ SQLiteDialect.GetDataType { c with dataType := "timestamp" } = "TEXT")
    ∧ (PostgresDialect.GetDataType { c with dataType := "date" } = "DATE"
      ∧ MySQLDialect.GetDataType { c with dataType := "date" } = "DATE"
      ∧ SQLiteDialect.GetDataType { c with dataType := "date" } = "TEXT")
    ∧ (PostgresDialect.GetDataType { c with dataType := "json" } = "JSONB"
      ∧ MySQLDialect.GetDataType { c with dataType := "json" } = "JSON"
      ∧ SQLiteDialect.GetDataType { c with dataType := "json" } = "TEXT") :=
  ⟨⟨rfl, rfl, rfl⟩, ⟨rfl, rfl, rfl⟩, ⟨rfl, rfl, rfl⟩,
   ⟨rfl, rfl, rfl, rfl⟩, ⟨rfl, rfl, rfl, rfl⟩, ⟨rfl, rfl, rfl⟩,
   ⟨pg_decimal c p s, my_decimal c p s, sl_decimal c p s⟩,
   ⟨rfl, rfl, rfl⟩, ⟨rfl, rfl, rfl⟩, ⟨rfl, rfl, rfl⟩⟩

/-- C2, counterexample: the claim says every dialect passes an unrecognized
non-decimal type string through unchanged, but the SQLite dialect maps the
unrecognized type `"mediumtext"` to `"TEXT"`, not to itself. -/
theorem sqlite_no_passthrough_cex :
    SQLiteDialect.GetDataType (newCol "note" "mediumtext") ≠ (newCol "note" "mediumtext").dataType
      ∧ SQLiteDialect.GetDataType (newCol "note" "mediumtext") = "TEXT" := by
  constructor <;> decide

/-- C2, amended: for a column whose type string is not one of the recognized
types, the Postgres and MySQL dialects map a `decimal`-prefixed string by
prefix substitution and pass any other string through unchanged, while the
SQLite dialect maps a `decimal`-prefixed string to REAL and anything else to
TEXT. -/
theorem getDataType_unrecognized_fallback (c : Column)
    (h : c.dataType ∉ (["uuid","string","text","integer","bigint","boolean","timestamp","date","json"] : List String)) :
    (PostgresDialect.GetDataType c =
        if hasPre c.dataType "decimal" then "DECIMAL" ++ trimPre c.dataType "decimal"
        else c.dataType)
    ∧ (MySQLDialect.GetDataType c =
        if hasPre c.dataType "decimal" then "DECIMAL" ++ trimPre c.dataType "decimal"
        else c.dataType)
    ∧ (SQLiteDialect.GetDataType c =
        if hasPre c.dataType "decimal" then "REAL" else "TEXT") :=
  ⟨pg_unrec c h, my_unrec c h, sl_unrec c h⟩

/-- Witness for the amended C2 at the concrete unrecognized type
`"mediumtext"`. -/
theorem getDataType_unrecognized_fallback_witness :
    ((newCol "note" "mediumtext").dataType ∉
        (["uuid","string","text","integer","bigint","boolean","timestamp","date","json"] : List String))
    ∧ ((PostgresDialect.GetDataType (newCol "note" "mediumtext") =
          if hasPre (newCol "note" "mediumtext").dataType "decimal" then
            "DECIMAL" ++ trimPre (newCol "note" "mediumtext").dataType "decimal"
          else (newCol "note" "mediumtext").dataType)
      ∧ (MySQLDialect.GetDataType (newCol "note" "mediumtext") =
          if hasPre (newCol "note" "mediumtext").dataType "decimal" then
            "DECIMAL" ++ trimPre (newCol "note" "mediumtext").dataType "decimal"
          else (newCol "note" "mediumtext").dataType)
      ∧ (SQLiteDialect.GetDataType (newCol "note" "mediumtext") =
          if hasPre (newCol "note" "mediumtext").dataType "decimal" then "REAL" else "TEXT")) :=
  ⟨by decide, getDataType_unrecognized_fallback (newCol "note" "mediumtext") (by decide)⟩

/-- C10: when no `Create`/`Modify` callback is active (the package-level
`currentBuilder` pointer is nil), every column-declaration function and
`Foreign` still return a builder handle (the address of the freshly
allocated object), but append the declaration to no descriptor and report no
error: the state's `currentBuilder` stays nil and, these functions having no
error result at all, the declaration is silently discarded. -/
theorem declarations_discarded_without_builder
    (name : String) (p s : Nat) (ch : List Column) (fh : List ForeignKey) :
    ((Uuid name ⟨none, ch, fh⟩).2.currentBuilder = none ∧ (Uuid name ⟨none, ch, fh⟩).1 = ch.length)
    ∧ ((StringF name ⟨none, ch, fh⟩).2.currentBuilder = none ∧ (StringF name ⟨none, ch, fh⟩).1 = ch.length)
    ∧ ((Text name ⟨none, ch, fh⟩).2.currentBuilder = none ∧ (Text name ⟨none, ch, fh⟩).1 = ch.length)
    ∧ ((Integer name ⟨none, ch, fh⟩).2.currentBuilder = none ∧ (Integer name ⟨none, ch, fh⟩).1 = ch.length)
    ∧ ((BigInteger name ⟨none, ch, fh⟩).2.currentBuilder = none ∧ (BigInteger name ⟨none, ch, fh⟩).1 = ch.length)
    ∧ ((Boolean name ⟨none, ch, fh⟩).2.currentBuilder = none ∧ (Boolean name ⟨none, ch, fh⟩).1 = ch.length)
    ∧ ((Decimal name p s ⟨none, ch, fh⟩).2.currentBuilder = none ∧ (Decimal name p s ⟨none, ch, fh⟩).1 = ch.length)
    ∧ ((Timestamp name ⟨none, ch, fh⟩).2.currentBuilder = none ∧ (Timestamp name ⟨none, ch, fh⟩).1 = ch.length)
    ∧ ((Date name ⟨none, ch, fh⟩).2.currentBuilder = none ∧ (Date name ⟨none, ch, fh⟩).1 = ch.length)
    ∧ ((Json name ⟨none, ch, fh⟩).2.currentBuilder = none ∧ (Json name ⟨none, ch, fh⟩).1 = ch.length)
    ∧ (Timestamps ⟨none, ch, fh⟩).currentBuilder = none
    ∧ (SoftDeletes ⟨none, ch, fh⟩).currentBuilder = none
    ∧ ((Foreign name ⟨none, ch, fh⟩).2.currentBuilder = none ∧ (Foreign name ⟨none, ch, fh⟩).1 = fh.length) :=
  ⟨⟨rfl, rfl⟩, ⟨rfl, rfl⟩, ⟨rfl, rfl⟩, ⟨rfl, rfl⟩, ⟨rfl, rfl⟩, ⟨rfl, rfl⟩, ⟨rfl, rfl⟩,
   ⟨rfl, rfl⟩, ⟨rfl, rfl⟩, ⟨rfl, rfl⟩, rfl, rfl, ⟨rfl, rfl⟩⟩

/-! ### Substring containment through `goJoin` -/

theorem containsSub_refl (s : String) : containsSub s s :=
  ⟨"", "", by rw [append_empty, empty_append]⟩

theorem containsSub_append_left {s sub : String} (t : String) (h : containsSub s sub) :
    containsSub (s ++ t) sub := by
  obtain ⟨p, q, hpq⟩ := h
  exact ⟨p, q ++ t, by rw [hpq]; simp [strAppend_assoc]⟩

theorem containsSub_append_right {s sub : String} (t : String) (h : containsSub s sub) :
    containsSub (t ++ s) sub := by
  obtain ⟨p, q, hpq⟩ := h
  exact ⟨t ++ p, q, by rw [hpq]; simp [strAppend_assoc]⟩

theorem containsSub_trans {a b c : String} (h1 : containsSub a b) (h2 : containsSub b c) :
    containsSub a c := by
  obtain ⟨p1, q1, h1⟩ := h1
  obtain ⟨p2, q2, h2⟩ := h2
  exact ⟨p1 ++ p2, q2 ++ q1, by rw [h1, h2]; simp [strAppend_assoc]⟩

theorem foldl_join_ext (sep : String) :
    ∀ (rest : List String) (init : String),
      ∃ post, rest.foldl (fun acc y => acc ++ sep ++ y) init = init ++ post
  | [], init => ⟨"", (append_empty init).symm⟩
  | r :: rs, init => by
    obtain ⟨post, hpost⟩ := foldl_join_ext sep rs (init ++ sep ++ r)
    exact ⟨sep ++ (r ++ post), by simp only [List.foldl_cons, hpost]; simp [strAppend_assoc]⟩

theorem containsSub_foldl_mem (sep : String) :
    ∀ (rest : List String) (init x : String), x ∈ rest →
      containsSub (rest.foldl (fun acc y => acc ++ sep ++ y) init) x
  | r :: rs, init, x, hx => by
    rcases List.mem_cons.mp hx with h | h
    · subst h
      obtain ⟨post, hpost⟩ := foldl_join_ext sep rs (init ++ sep ++ x)
      rw [List.foldl_cons, hpost]
      exact ⟨init ++ sep, post, by simp [strAppend_assoc]⟩
    · exact containsSub_foldl_mem sep rs (init ++ sep ++ r) x h

theorem containsSub_goJoin {x : String} {l : List String} (sep : String) (h : x ∈ l) :
    containsSub (goJoin l sep) x := by
  match l, h with
  | e :: rest, h =>
    rcases List.mem_cons.mp h with h | h
    · subst h
      obtain ⟨post, hpost⟩ := foldl_join_ext sep rest x
      rw [goJoin, hpost]
      exact ⟨"", post, by rw [empty_append]⟩
    · exact containsSub_foldl_mem sep rest e x h

theorem defaultSql_eq {col : Column} {v : String} (hv : col.defaultValue = some v) :
    defaultSql col =
      if col.dataType = "boolean" ∨ col.dataType = "integer" ∨ col.dataType = "bigint"
      then " DEFAULT " ++ v else " DEFAULT '" ++ v ++ "'" := by
  simp only [defaultSql, hv, Bool.or_eq_true, beq_iff_eq, or_assoc]

theorem columnDef_contains_default (d : Dialect) {col : Column} {v : String}
    (hv : col.defaultValue = some v) :
    containsSub
      (match d with
       | .postgres => PostgresDialect.columnDef col
       | .mysql => MySQLDialect.columnDef col
       | .sqlite => SQLiteDialect.columnDef col)
      (if col.dataType = "boolean" ∨ col.dataType = "integer" ∨ col.dataType = "bigint"
       then " DEFAULT " ++ v else " DEFAULT '" ++ v ++ "'") := by
  rw [← defaultSql_eq hv]
  cases d <;>
    simp only [PostgresDialect.columnDef, MySQLDialect.columnDef, SQLiteDialect.columnDef] <;>
    (repeat apply containsSub_append_right) <;>
    exact containsSub_refl _

/-- C8: for every dialect and every column carrying a default literal, the
rendered CREATE TABLE text, and one of the rendered ADD COLUMN statements,
contain the default clause unquoted when the column's semantic type is
boolean, integer or big-integer, and single-quoted for every other semantic
type. -/
theorem default_literal_rendering (d : Dialect) (tb : TableBuilder) (col : Column) (v : String)
    (hmem : col ∈ tb.columns) (hv : col.defaultValue = some v) :
    containsSub (d.BuildCreateTable tb)
      (if col.dataType = "boolean" ∨ col.dataType = "integer" ∨ col.dataType = "bigint"
       then " DEFAULT " ++ v else " DEFAULT '" ++ v ++ "'")
    ∧ ∃ q ∈ d.BuildModifyTable tb,
        containsSub q
          (if col.dataType = "boolean" ∨ col.dataType = "integer" ∨ col.dataType = "bigint"
           then " DEFAULT " ++ v else " DEFAULT '" ++ v ++ "'") := by
  constructor
  · have hdef := columnDef_contains_default d hv
    have hbody : containsSub
        (goJoin
          (match d with
           | .postgres => tb.columns.map PostgresDialect.columnDef
               ++ tb.foreignKeys.map (namedFkDef tb.tableName)
           | .mysql => tb.columns.map MySQLDialect.columnDef
               ++ tb.foreignKeys.map (namedFkDef tb.tableName)
           | .sqlite => tb.columns.map SQLiteDialect.columnDef
               ++ tb.foreignKeys.map plainFkDef) ",\n")
        (if col.dataType = "boolean" ∨ col.dataType = "integer" ∨ col.dataType = "bigint"
         then " DEFAULT " ++ v else " DEFAULT '" ++ v ++ "'") := by
      refine containsSub_trans (containsSub_goJoin ",\n" ?_) hdef
      cases d <;>
        exact List.mem_append_left _ (List.mem_map_of_mem _ hmem)
    simp only [Dialect.BuildCreateTable]
    refine containsSub_trans (containsSub_goJoin "\n" ?_) hbody
    cases d <;> simp
  · refine ⟨d.modifyStmt tb.tableName col, List.mem_map_of_mem _ hmem, ?_⟩
    rw [← defaultSql_eq hv]
    simp only [Dialect.modifyStmt]
    apply containsSub_append_left
    apply containsSub_append_right
    exact containsSub_refl _

/-- Witness for C8 at a concrete boolean column with default `true` in the
Postgres dialect. -/
theorem default_literal_rendering_witness :
    ({ name := "active", dataType := "boolean", defaultValue := some "true" } : Column) ∈
        (⟨"users", [{ name := "active", dataType := "boolean", defaultValue := some "true" }], []⟩ : TableBuilder).columns
    ∧ ({ name := "active", dataType := "boolean", defaultValue := some "true" } : Column).defaultValue = some "true"
    ∧ (containsSub
        (Dialect.BuildCreateTable .postgres
          ⟨"users", [{ name := "active", dataType := "boolean", defaultValue := some "true" }], []⟩)
        (if ({ name := "active", dataType := "boolean", defaultValue := some "true" } : Column).dataType = "boolean"
            ∨ ({ name := "active", dataType := "boolean", defaultValue := some "true" } : Column).dataType = "integer"
            ∨ ({ name := "active", dataType := "boolean", defaultValue := some "true" } : Column).dataType = "bigint"
         then " DEFAULT " ++ "true" else " DEFAULT '" ++ "true" ++ "'")
      ∧ ∃ q ∈ Dialect.BuildModifyTable .postgres
            ⟨"users", [{ name := "active", dataType := "boolean", defaultValue := some "true" }], []⟩,
          containsSub q
            (if ({ name := "active", dataType := "boolean", defaultValue := some "true" } : Column).dataType = "boolean"
                ∨ ({ name := "active", dataType := "boolean", defaultValue := some "true" } : Column).dataType = "integer"
                ∨ ({ name := "active", dataType := "boolean", defaultValue := some "true" } : Column).dataType = "bigint"
             then " DEFAULT " ++ "true" else " DEFAULT '" ++ "true" ++ "'")) :=
  ⟨by decide, rfl,
   default_literal_rendering .postgres
     ⟨"users", [{ name := "active", dataType := "boolean", defaultValue := some "true" }], []⟩
     { name := "active", dataType := "boolean", defaultValue := some "true" } "true"
     (by decide) rfl⟩

theorem migrateLoop_ok (batch : Nat) (ms : List Migration) :
    ∀ (led : Ledger) (tr : List String), (∀ m ∈ ms, m.upErr = none) →
      migrateLoop batch ms led tr =
        ⟨none, led ++ ms.map (fun m => ⟨m.Name, batch⟩), tr ++ ms.map (·.Name)⟩ := by
  induction ms with
  | nil => intro led tr _; simp [migrateLoop]
  | cons m rest ih =>
    intro led tr h
    have hm : m.upErr = none := h m (by simp)
    simp only [migrateLoop, hm]
    rw [ih _ _ (fun x hx => h x (by simp [hx]))]
    simp [RecordMigration]

theorem migrateLoop_fail (batch : Nat) (l1 : List Migration) (f : Migration)
    (l2 : List Migration) (e : String) :
    ∀ (led : Ledger) (tr : List String), (∀ m ∈ l1, m.upErr = none) → f.upErr = some e →
      migrateLoop batch (l1 ++ f :: l2) led tr =
        ⟨some ("migration " ++ f.Name ++ " failed: " ++ e),
         led ++ l1.map (fun m => ⟨m.Name, batch⟩),
         tr ++ l1.map (·.Name) ++ [f.Name]⟩ := by
  induction l1 with
  | nil => intro led tr _ hf; simp only [List.nil_append, migrateLoop, hf]; simp
  | cons m rest ih =>
    intro led tr h hf
    have hm : m.upErr = none := h m (by simp)
    simp only [List.cons_append, migrateLoop, hm, List.append_eq]
    rw [ih _ _ (fun x hx => h x (by simp [hx])) hf]
    simp [RecordMigration]

theorem migrateLoop_ledger_shape (batch : Nat) (ms : List Migration) :
    ∀ (led : Ledger) (tr : List String),
      ∃ l1 : List Migration, l1.Sublist ms ∧
        (migrateLoop batch ms led tr).ledger = led ++ l1.map (fun m => ⟨m.Name, batch⟩) := by
  induction ms with
  | nil => intro led tr; exact ⟨[], List.nil_sublist _, by simp [migrateLoop]⟩
  | cons m rest ih =>
    intro led tr
    cases hm : m.upErr with
    | some e => exact ⟨[], List.nil_sublist _, by simp [migrateLoop, hm]⟩
    | none =>
      obtain ⟨l1, hsub, hled⟩ := ih (RecordMigration led m.Name batch) (tr ++ [m.Name])
      refine ⟨m :: l1, List.Sublist.cons₂ _ hsub, ?_⟩
      simp only [migrateLoop, hm, RecordMigration] at hled ⊢
      rw [hled]
      simp

theorem migrateLoop_trace_subset (batch : Nat) (ms : List Migration) :
    ∀ (led : Ledger) (tr : List String),
      (migrateLoop batch ms led tr).trace ⊆ tr ++ ms.map (·.Name) := by
  induction ms with
  | nil => intro led tr; simp [migrateLoop]
  | cons m rest ih =>
    intro led tr
    cases hm : m.upErr with
    | some e =>
      simp only [migrateLoop, hm]
      intro x hx
      simp only [List.mem_append, List.mem_singleton, List.map_cons, List.mem_cons] at hx ⊢
      tauto
    | none =>
      simp only [migrateLoop, hm]
      intro x hx
      have := ih (RecordMigration led m.Name batch) (tr ++ [m.Name]) hx
      simp only [List.mem_append, List.mem_singleton, List.map_cons, List.mem_cons] at this ⊢
      tauto

theorem sortByName_perm (l : List Migration) : (sortByName l).Perm l :=
  @List.perm_insertionSort Migration (fun a b => a.Name ≤ b.Name)
    (fun a b => decStrLE a.Name b.Name) l

theorem sortByName_sorted (l : List Migration) :
    List.Sorted (fun a b : Migration => a.Name ≤ b.Name) (sortByName l) := by
  haveI htot : IsTotal Migration (fun a b : Migration => a.Name ≤ b.Name) :=
    ⟨fun a b => le_total a.Name b.Name⟩
  haveI htr : IsTrans Migration (fun a b : Migration => a.Name ≤ b.Name) :=
    ⟨fun a b c hab hbc => le_trans hab hbc⟩
  exact @List.sorted_insertionSort Migration _ (fun a b => decStrLE a.Name b.Name) htot htr l

theorem mem_pendingOf {units : List Migration} {led : Ledger} {m : Migration} :
    m ∈ pendingOf units led ↔ m ∈ units ∧ m.Name ∉ ledgerNames led := by
  simp [pendingOf, List.mem_filter, List.contains]

theorem sorted_names_unique {l1 l2 : List Migration} (hperm : l1.Perm l2)
    (hnd : (l2.map (·.Name)).Nodup)
    (hs1 : List.Sorted (fun a b : Migration => a.Name ≤ b.Name) l1)
    (hs2 : List.Sorted (fun a b : Migration => a.Name ≤ b.Name) l2) :
    l1.map (·.Name) = l2.map (·.Name) := by
  have hp : (l1.map (·.Name)).Perm (l2.map (·.Name)) := hperm.map _
  have hnd1 : (l1.map (·.Name)).Nodup := hp.symm.nodup hnd
  have hlt1 : List.Sorted (· < ·) (l1.map (·.Name)) :=
    List.Sorted.lt_of_le (List.pairwise_map.mpr hs1) hnd1
  have hlt2 : List.Sorted (· < ·) (l2.map (·.Name)) :=
    List.Sorted.lt_of_le (List.pairwise_map.mpr hs2) hnd
  haveI : IsAntisymm String (· < ·) := ⟨fun a b h1 h2 => absurd h2 (lt_asymm h1)⟩
  exact List.eq_of_perm_of_sorted hp hlt1 hlt2

theorem migrate_computes (units : List Migration) (led : Ledger)
    (hok : ∀ m ∈ pendingOf units led, m.upErr = none) :
    Migrate units led =
      ⟨none,
       led ++ (sortByName (pendingOf units led)).map
         (fun m => ⟨m.Name, GetLastBatch led + 1⟩),
       (sortByName (pendingOf units led)).map (·.Name)⟩ := by
  by_cases hemp : (pendingOf units led).isEmpty
  · have hnil : pendingOf units led = [] := List.isEmpty_iff.mp hemp
    simp [Migrate, hemp, hnil, sortByName, List.insertionSort]
  · simp only [Migrate, hemp, if_neg, Bool.false_eq_true, not_false_eq_true]
    rw [migrateLoop_ok _ _ _ _
      (fun m hm => hok m ((sortByName_perm _).mem_iff.mp hm))]
    simp

/-- C3: for a unit list with distinct names (the registry invariant) whose
pending forward actions all succeed, `Migrate` executes exactly the units
whose name is absent from the ledger, in strictly ascending name order and
independently of the input order, and records every one of them with the
single batch number `lastBatch + 1`. -/
theorem migrate_applies_pending_sorted (units : List Migration) (led : Ledger)
    (hnodup : (units.map (·.Name)).Nodup)
    (hok : ∀ m ∈ pendingOf units led, m.upErr = none) :
    (Migrate units led).err = none
    ∧ (Migrate units led).trace = (sortByName (pendingOf units led)).map (·.Name)
    ∧ ((Migrate units led).trace).Perm ((pendingOf units led).map (·.Name))
    ∧ List.Sorted (· < ·) (Migrate units led).trace
    ∧ (Migrate units led).ledger =
        led ++ (Migrate units led).trace.map
          (fun n => (⟨n, GetLastBatch led + 1⟩ : LedgerEntry))
    ∧ (∀ units' : List Migration, units'.Perm units →
        (Migrate units' led).trace = (Migrate units led).trace) := by
  have hpsub : (pendingOf units led).Sublist units := List.filter_sublist _
  have hpnd : ((pendingOf units led).map (·.Name)).Nodup :=
    (hpsub.map _).nodup hnodup
  have hsnd : ((sortByName (pendingOf units led)).map (·.Name)).Nodup :=
    (((sortByName_perm _).map (·.Name)).symm).nodup hpnd
  rw [migrate_computes units led hok]
  refine ⟨rfl, rfl, ?_, ?_, ?_, ?_⟩
  · exact (sortByName_perm _).map _
  · exact List.Sorted.lt_of_le (List.pairwise_map.mpr (sortByName_sorted _)) hsnd
  · simp [Function.comp]
  · intro units' hperm
    have hpp : (pendingOf units' led).Perm (pendingOf units led) := hperm.filter _
    have hok' : ∀ m ∈ pendingOf units' led, m.upErr = none :=
      fun m hm => hok m (hpp.mem_iff.mp hm)
    rw [migrate_computes units' led hok']
    exact sorted_names_unique
      (((sortByName_perm _).trans hpp).trans (sortByName_perm _).symm)
      hsnd (sortByName_sorted _) (sortByName_sorted _)

/-- Witness for C3: two pending units supplied in descending name order on a
ledger already holding a third name. -/
theorem migrate_applies_pending_sorted_witness :
    ((([⟨"b_mig", none, none⟩, ⟨"a_mig", none, none⟩] : List Migration).map (·.Name)).Nodup
      ∧ ∀ m ∈ pendingOf [⟨"b_mig", none, none⟩, ⟨"a_mig", none, none⟩]
          [⟨"c_mig", 1⟩], m.upErr = none)
    ∧ ((Migrate [⟨"b_mig", none, none⟩, ⟨"a_mig", none, none⟩] [⟨"c_mig", 1⟩]).err = none
    ∧ (Migrate [⟨"b_mig", none, none⟩, ⟨"a_mig", none, none⟩] [⟨"c_mig", 1⟩]).trace =
        (sortByName (pendingOf [⟨"b_mig", none, none⟩, ⟨"a_mig", none, none⟩] [⟨"c_mig", 1⟩])).map (·.Name)
    ∧ ((Migrate [⟨"b_mig", none, none⟩, ⟨"a_mig", none, none⟩] [⟨"c_mig", 1⟩]).trace).Perm
        ((pendingOf [⟨"b_mig", none, none⟩, ⟨"a_mig", none, none⟩] [⟨"c_mig", 1⟩]).map (·.Name))
    ∧ List.Sorted (· < ·) (Migrate [⟨"b_mig", none, none⟩, ⟨"a_mig", none, none⟩] [⟨"c_mig", 1⟩]).trace
    ∧ (Migrate [⟨"b_mig", none, none⟩, ⟨"a_mig", none, none⟩] [⟨"c_mig", 1⟩]).ledger =
        [⟨"c_mig", 1⟩] ++ (Migrate [⟨"b_mig", none, none⟩, ⟨"a_mig", none, none⟩] [⟨"c_mig", 1⟩]).trace.map
          (fun n => (⟨n, GetLastBatch [⟨"c_mig", 1⟩] + 1⟩ : LedgerEntry))
    ∧ (∀ units' : List Migration, units'.Perm [⟨"b_mig", none, none⟩, ⟨"a_mig", none, none⟩] →
        (Migrate units' [⟨"c_mig", 1⟩]).trace =
          (Migrate [⟨"b_mig", none, none⟩, ⟨"a_mig", none, none⟩] [⟨"c_mig", 1⟩]).trace)) :=
  ⟨⟨by decide, by decide⟩,
   migrate_applies_pending_sorted [⟨"b_mig", none, none⟩, ⟨"a_mig", none, none⟩]
     [⟨"c_mig", 1⟩] (by decide) (by decide)⟩

/-- C5: when a pending unit's forward action fails mid-`Migrate`, the call
returns that unit's wrapped error immediately, no later pending unit's
forward action is invoked, and the ledger keeps exactly the entries already
recorded for the earlier units of this batch (no compensating removal). -/
theorem migrate_fail_fast (units : List Migration) (led : Ledger) (l1 l2 : List Migration)
    (f : Migration) (e : String)
    (hsplit : sortByName (pendingOf units led) = l1 ++ f :: l2)
    (hok : ∀ m ∈ l1, m.upErr = none) (hf : f.upErr = some e) :
    (Migrate units led).err = some ("migration " ++ f.Name ++ " failed: " ++ e)
    ∧ (Migrate units led).trace = l1.map (·.Name) ++ [f.Name]
    ∧ (Migrate units led).ledger =
        led ++ l1.map (fun m => (⟨m.Name, GetLastBatch led + 1⟩ : LedgerEntry)) := by
  have hne : (pendingOf units led).isEmpty = false := by
    rcases h : pendingOf units led with _ | ⟨a, rest⟩
    · exfalso
      rw [h] at hsplit
      simp [sortByName] at hsplit
    · rfl
  simp only [Migrate, hne, Bool.false_eq_true, if_false]
  rw [hsplit, migrateLoop_fail _ _ _ _ _ _ _ hok hf]
  simp

/-- Witness for C5: the middle of three pending units fails with error
`boom`. -/
theorem migrate_fail_fast_witness :
    (sortByName (pendingOf
        [⟨"a_mig", none, none⟩, ⟨"b_mig", some "boom", none⟩, ⟨"c_mig", none, none⟩] []) =
      [⟨"a_mig", none, none⟩] ++ (⟨"b_mig", some "boom", none⟩ : Migration) :: [⟨"c_mig", none, none⟩]
    ∧ (∀ m ∈ ([⟨"a_mig", none, none⟩] : List Migration), m.upErr = none)
    ∧ (⟨"b_mig", some "boom", none⟩ : Migration).upErr = some "boom")
    ∧ ((Migrate [⟨"a_mig", none, none⟩, ⟨"b_mig", some "boom", none⟩, ⟨"c_mig", none, none⟩] []).err =
        some ("migration " ++ (⟨"b_mig", some "boom", none⟩ : Migration).Name ++ " failed: " ++ "boom")
    ∧ (Migrate [⟨"a_mig", none, none⟩, ⟨"b_mig", some "boom", none⟩, ⟨"c_mig", none, none⟩] []).trace =
        ([⟨"a_mig", none, none⟩] : List Migration).map (·.Name) ++ [(⟨"b_mig", some "boom", none⟩ : Migration).Name]
    ∧ (Migrate [⟨"a_mig", none, none⟩, ⟨"b_mig", some "boom", none⟩, ⟨"c_mig", none, none⟩] []).ledger =
        [] ++ ([⟨"a_mig", none, none⟩] : List Migration).map
          (fun m => (⟨m.Name, GetLastBatch [] + 1⟩ : LedgerEntry))) :=
  ⟨⟨by decide, by decide, rfl⟩,
   migrate_fail_fast
     [⟨"a_mig", none, none⟩, ⟨"b_mig", some "boom", none⟩, ⟨"c_mig", none, none⟩] []
     [⟨"a_mig", none, none⟩] [⟨"c_mig", none, none⟩] ⟨"b_mig", some "boom", none⟩ "boom"
     (by decide) (by decide) rfl⟩

theorem ledgerNames_append (l1 l2 : Ledger) :
    ledgerNames (l1 ++ l2) = ledgerNames l1 ++ ledgerNames l2 := by
  simp [ledgerNames]

theorem migrate_no_reexecution (units : List Migration) (led : Ledger) (n : String)
    (hn : n ∈ ledgerNames led) : n ∉ (Migrate units led).trace := by
  intro htr
  by_cases hemp : (pendingOf units led).isEmpty
  · simp [Migrate, hemp] at htr
  · simp only [Migrate, hemp, Bool.false_eq_true, if_false] at htr
    have hsub := migrateLoop_trace_subset (GetLastBatch led + 1)
      (sortByName (pendingOf units led)) led [] htr
    simp only [List.nil_append, List.mem_map] at hsub
    obtain ⟨m, hm, hname⟩ := hsub
    have hmem : m ∈ pendingOf units led := (sortByName_perm _).mem_iff.mp hm
    exact (mem_pendingOf.mp hmem).2 (hname ▸ hn)

theorem migrate_preserves_nodup (units : List Migration) (led : Ledger)
    (hled : (ledgerNames led).Nodup) (hunits : (units.map (·.Name)).Nodup) :
    (ledgerNames (Migrate units led).ledger).Nodup := by
  by_cases hemp : (pendingOf units led).isEmpty
  · simpa [Migrate, hemp] using hled
  · simp only [Migrate, hemp, Bool.false_eq_true, if_false]
    obtain ⟨l1, hsub, hled'⟩ := migrateLoop_ledger_shape
      (GetLastBatch led + 1) (sortByName (pendingOf units led)) led []
    rw [hled', ledgerNames_append]
    have hl1p : ∀ m ∈ l1, m ∈ pendingOf units led := fun m hm =>
      (sortByName_perm _).mem_iff.mp (hsub.mem hm)
    have hpnd : ((pendingOf units led).map (·.Name)).Nodup :=
      ((List.filter_sublist _).map _).nodup hunits
    have hsnd : ((sortByName (pendingOf units led)).map (·.Name)).Nodup :=
      (((sortByName_perm _).map (·.Name)).symm).nodup hpnd
    rw [List.nodup_append]
    refine ⟨hled, ?_, ?_⟩
    · have : (ledgerNames (l1.map (fun m => ⟨m.Name, GetLastBatch led + 1⟩))) = l1.map (·.Name) := by
        simp [ledgerNames, Function.comp]
      rw [this]
      exact ((hsub.map _).nodup hsnd)
    · intro x hx hx2
      have : (ledgerNames (l1.map (fun m => ⟨m.Name, GetLastBatch led + 1⟩))) = l1.map (·.Name) := by
        simp [ledgerNames, Function.comp]
      rw [this] at hx2
      obtain ⟨m, hm, hname⟩ := List.mem_map.mp hx2
      exact (mem_pendingOf.mp (hl1p m hm)).2 (hname ▸ hx)

theorem rollbackNames_ledger_sublist (units : List Migration) (names : List String) :
    ∀ (led : Ledger) (tr : List String),
      ((rollbackNames units names led tr).ledger).Sublist led := by
  induction names with
  | nil => intro led tr; exact List.Sublist.refl _
  | cons n rest ih =>
    intro led tr
    simp only [rollbackNames]
    cases hl : lookupUnit units n with
    | none => simp only [hl]; exact List.Sublist.refl _
    | some m =>
      cases hd : m.downErr with
      | some e => simp only [hl, hd]; exact List.Sublist.refl _
      | none =>
        simp only [hl, hd, RemoveMigration]
        exact (ih _ _).trans (List.filter_sublist _)

theorem rollbackLoop_ledger_sublist (units : List Migration) :
    ∀ (steps batch : Nat) (led : Ledger) (tr : List String),
      ((rollbackLoop units steps batch led tr).ledger).Sublist led := by
  intro steps
  induction steps with
  | zero => intro batch led tr; exact List.Sublist.refl _
  | succ s ih =>
    intro batch led tr
    cases batch with
    | zero => exact List.Sublist.refl _
    | succ b =>
      simp only [rollbackLoop]
      cases herr : (rollbackNames units (GetMigrationsFromBatch led (b + 1)) led tr).err with
      | some e =>
        simp only [herr]
        exact rollbackNames_ledger_sublist units _ led tr
      | none =>
        simp only [herr]
        exact (ih b _ _).trans (rollbackNames_ledger_sublist units _ led tr)

theorem rollback_ledger_sublist (units : List Migration) (steps : Int) (led : Ledger) :
    ((Rollback units steps led).ledger).Sublist led := by
  rw [Rollback]
  by_cases h : GetLastBatch led = 0
  · simp [h]
  · simp only [h, if_false]
    exact rollbackLoop_ledger_sublist units _ _ led []

theorem applyOps_nodup (ops : List MigOp) :
    ∀ (led : Ledger), (ledgerNames led).Nodup →
      (∀ op ∈ ops, (op.units.map (·.Name)).Nodup) →
      (ledgerNames (applyOps led ops)).Nodup := by
  induction ops with
  | nil => intro led hled _; simpa [applyOps] using hled
  | cons op rest ih =>
    intro led hled hops
    have h1 : (ledgerNames (applyOp led op)).Nodup := by
      cases op with
      | migrate u =>
        have hu := hops (MigOp.migrate u) (by simp)
        simp only [MigOp.units] at hu
        exact migrate_preserves_nodup u led hled hu
      | rollback u s =>
        exact ((rollback_ledger_sublist u s led).map _).nodup hled
    have : applyOps led (op :: rest) = applyOps (applyOp led op) rest := by
      simp [applyOps]
    rw [this]
    exact ih _ h1 (fun o ho => hops o (by simp [ho]))

/-- C6: a unit whose name is already in the ledger is excluded from the
pending set and its forward action is never invoked, whatever forward action
it is resupplied with; and after any sequence of `Migrate`/`Rollback` calls
with duplicate-free unit lists starting from an empty ledger, each migration
name appears in the ledger at most once. -/
theorem at_most_once_in_ledger (ops : List MigOp)
    (hops : ∀ op ∈ ops, (op.units.map (·.Name)).Nodup) :
    (∀ (units : List Migration) (led : Ledger) (n : String),
        n ∈ ledgerNames led → n ∉ (Migrate units led).trace)
    ∧ (ledgerNames (applyOps [] ops)).Nodup :=
  ⟨fun units led n hn => migrate_no_reexecution units led n hn,
   applyOps_nodup ops [] (by simp [ledgerNames]) hops⟩

/-- Witness for C6: a migrate of two units followed by a one-step
rollback. -/
theorem at_most_once_in_ledger_witness :
    (∀ op ∈ ([.migrate [⟨"a_mig", none, none⟩, ⟨"b_mig", none, none⟩],
              .rollback [⟨"a_mig", none, none⟩, ⟨"b_mig", none, none⟩] 1] : List MigOp),
        (op.units.map (·.Name)).Nodup)
    ∧ ((∀ (units : List Migration) (led : Ledger) (n : String),
          n ∈ ledgerNames led → n ∉ (Migrate units led).trace)
      ∧ (ledgerNames (applyOps []
          [.migrate [⟨"a_mig", none, none⟩, ⟨"b_mig", none, none⟩],
           .rollback [⟨"a_mig", none, none⟩, ⟨"b_mig", none, none⟩] 1])).Nodup) :=
  ⟨by decide, at_most_once_in_ledger _ (by decide)⟩

theorem foldl_max_le_init (l : List LedgerEntry) :
    ∀ a : Nat, a ≤ l.foldl (fun acc e => max acc e.batch) a := by
  induction l with
  | nil => intro a; exact le_refl a
  | cons e rest ih =>
    intro a
    exact le_trans (le_max_left a e.batch) (ih _)

theorem batch_le_getLastBatch {led : Ledger} {e : LedgerEntry} (he : e ∈ led) :
    e.batch ≤ GetLastBatch led := by
  have aux : ∀ (l : List LedgerEntry) (a : Nat), e ∈ l →
      e.batch ≤ l.foldl (fun acc x => max acc x.batch) a := by
    intro l
    induction l with
    | nil => intro a h; cases h
    | cons f rest ih =>
      intro a h
      rcases List.mem_cons.mp h with h | h
      · subst h
        exact le_trans (le_max_right a e.batch) (foldl_max_le_init rest _)
      · exact ih _ h
  exact aux led 0 he

theorem nodup_names_inj {led : Ledger} (h : (ledgerNames led).Nodup)
    {e1 e2 : LedgerEntry} (h1 : e1 ∈ led) (h2 : e2 ∈ led)
    (he : e1.migration = e2.migration) : e1 = e2 :=
  List.inj_on_of_nodup_map h h1 h2 he

theorem mem_getMigrationsFromBatch {led : Ledger} {b : Nat} {n : String} :
    n ∈ GetMigrationsFromBatch led b ↔ ∃ e ∈ led, e.migration = n ∧ e.batch = b := by
  simp only [GetMigrationsFromBatch, List.mem_map, List.mem_reverse, List.mem_filter,
    beq_iff_eq]
  constructor
  · rintro ⟨e, ⟨he, hb⟩, hn⟩
    exact ⟨e, he, hn, hb⟩
  · rintro ⟨e, he, hn, hb⟩
    exact ⟨e, ⟨he, hb⟩, hn⟩

theorem filter_not_batchNames (led : Ledger) (b : Nat) (hnd : (ledgerNames led).Nodup) :
    led.filter (fun e => !(GetMigrationsFromBatch led b).contains e.migration) =
      led.filter (fun e => e.batch != b) := by
  apply List.filter_congr
  intro e he
  by_cases hb : e.batch = b
  · have hmem : e.migration ∈ GetMigrationsFromBatch led b :=
      mem_getMigrationsFromBatch.mpr ⟨e, he, rfl, hb⟩
    simp [List.contains, hmem, hb]
  · have hmem : e.migration ∉ GetMigrationsFromBatch led b := by
      intro hc
      obtain ⟨e', he', hm', hb'⟩ := mem_getMigrationsFromBatch.mp hc
      exact hb ((nodup_names_inj hnd he he' hm'.symm) ▸ hb')
    simp [List.contains, hmem, hb]

theorem rollbackNames_ok (units : List Migration) (names : List String) :
    ∀ (led : Ledger) (tr : List String),
      (∀ n ∈ names, ∃ m, lookupUnit units n = some m ∧ m.downErr = none) →
      rollbackNames units names led tr =
        ⟨none, led.filter (fun e => !names.contains e.migration), tr ++ names⟩ := by
  induction names with
  | nil =>
    intro led tr _
    simp [rollbackNames]
  | cons n rest ih =>
    intro led tr h
    obtain ⟨m, hm, hd⟩ := h n (by simp)
    simp only [rollbackNames, hm, hd]
    rw [ih _ _ (fun x hx => h x (by simp [hx]))]
    simp only [RemoveMigration, List.filter_filter]
    have hfil : List.filter (fun a => !rest.contains a.migration && a.migration != n) led =
        List.filter (fun e => !(n :: rest).contains e.migration) led :=
      List.filter_congr (fun e _ => by
        by_cases hmn : e.migration = n <;>
          simp [List.contains_cons, Bool.not_or, Bool.and_comm, hmn])
    rw [hfil]
    simp

theorem rollbackNames_missing (units : List Migration) (p : List String) (n : String)
    (q : List String) :
    ∀ (led : Ledger) (tr : List String),
      (∀ x ∈ p, ∃ m, lookupUnit units x = some m ∧ m.downErr = none) →
      lookupUnit units n = none →
      rollbackNames units (p ++ n :: q) led tr =
        ⟨some ("migration file not found: " ++ n),
         led.filter (fun e => !p.contains e.migration), tr ++ p⟩ := by
  induction p with
  | nil =>
    intro led tr _ hn
    simp only [List.nil_append, rollbackNames, hn]
    simp
  | cons x rest ih =>
    intro led tr h hn
    obtain ⟨m, hm, hd⟩ := h x (by simp)
    simp only [List.cons_append, rollbackNames, hm, hd, List.append_eq]
    rw [ih _ _ (fun y hy => h y (by simp [hy])) hn]
    simp only [RemoveMigration, List.filter_filter]
    have hfil : List.filter (fun a => !rest.contains a.migration && a.migration != x) led =
        List.filter (fun e => !(x :: rest).contains e.migration) led :=
      List.filter_congr (fun e _ => by
        by_cases hmx : e.migration = x <;>
          simp [List.contains_cons, Bool.not_or, Bool.and_comm, hmx])
    rw [hfil]
    simp

theorem rollbackSpecTrace_congr (led led' : Ledger) :
    ∀ (steps b : Nat),
      (∀ j, j ≤ b → GetMigrationsFromBatch led' j = GetMigrationsFromBatch led j) →
      rollbackSpecTrace led' steps b = rollbackSpecTrace led steps b
  | 0, _, _ => rfl
  | _ + 1, 0, _ => rfl
  | steps + 1, b + 1, h => by
    rw [rollbackSpecTrace, rollbackSpecTrace, h (b + 1) (le_refl _),
      rollbackSpecTrace_congr led led' steps b (fun j hj => h j (le_trans hj (Nat.le_succ b)))]

theorem getFromBatch_filter_ne (led : Ledger) (b j : Nat) (hj : j ≠ b) :
    GetMigrationsFromBatch (led.filter (fun e => e.batch != b)) j =
      GetMigrationsFromBatch led j := by
  simp only [GetMigrationsFromBatch, List.filter_filter]
  have : List.filter (fun e => e.batch == j && e.batch != b) led =
      List.filter (fun e => e.batch == j) led :=
    List.filter_congr (fun e _ => by
      by_cases hb : e.batch = j <;> simp [hb, hj])
  rw [this]

theorem rollbackLoop_ok (units : List Migration) (steps : Nat) :
    ∀ (batch : Nat) (led : Ledger) (tr : List String),
      (ledgerNames led).Nodup →
      (∀ e ∈ led, e.batch ≤ batch) →
      (∀ e ∈ led, batch - steps < e.batch →
        ∃ m, lookupUnit units e.migration = some m ∧ m.downErr = none) →
      rollbackLoop units steps batch led tr =
        ⟨none, led.filter (fun e => decide (e.batch ≤ batch - steps)),
         tr ++ rollbackSpecTrace led steps batch⟩ := by
  induction steps with
  | zero =>
    intro batch led tr _ hb _
    simp [rollbackLoop, rollbackSpecTrace]
    exact (List.filter_eq_self.mpr (fun e he => by simp [hb e he])).symm
  | succ s ih =>
    intro batch led tr hnd hb hres
    cases batch with
    | zero =>
      simp [rollbackLoop, rollbackSpecTrace]
      exact (List.filter_eq_self.mpr (fun e he => by
        have := hb e he
        simp
        omega)).symm
    | succ b =>
      have hnames : ∀ n ∈ GetMigrationsFromBatch led (b + 1),
          ∃ m, lookupUnit units n = some m ∧ m.downErr = none := by
        intro n hn
        obtain ⟨e, he, hmig, hbatch⟩ := mem_getMigrationsFromBatch.mp hn
        exact hmig ▸ hres e he (by omega)
      simp only [rollbackLoop]
      rw [rollbackNames_ok units _ led tr hnames]
      simp only
      rw [filter_not_batchNames led (b + 1) hnd]
      have hnd' : (ledgerNames (led.filter (fun e => e.batch != b + 1))).Nodup :=
        ((List.filter_sublist _).map _).nodup hnd
      have hb' : ∀ e ∈ led.filter (fun e => e.batch != b + 1), e.batch ≤ b := by
        intro e he
        obtain ⟨he', hne⟩ := List.mem_filter.mp he
        have := hb e he'
        simp only [bne_iff_ne, ne_eq, decide_not] at hne
        omega
      have hres' : ∀ e ∈ led.filter (fun e => e.batch != b + 1), b - s < e.batch →
          ∃ m, lookupUnit units e.migration = some m ∧ m.downErr = none := by
        intro e he hlt
        exact hres e (List.mem_filter.mp he).1 (by omega)
      rw [ih b _ _ hnd' hb' hres']
      have hledeq : (led.filter (fun e => e.batch != b + 1)).filter
            (fun e => decide (e.batch ≤ b - s)) =
          led.filter (fun e => decide (e.batch ≤ (b + 1) - (s + 1))) := by
        rw [List.filter_filter]
        apply List.filter_congr
        intro e _
        by_cases hle : e.batch ≤ b - s
        · have hne : e.batch ≠ b + 1 := by omega
          simp [hle, hne]
        · simp [hle]
      rw [hledeq]
      have htr : rollbackSpecTrace (led.filter (fun e => e.batch != b + 1)) s b =
          rollbackSpecTrace led s b :=
        rollbackSpecTrace_congr led _ s b
          (fun j hj => getFromBatch_filter_ne led (b + 1) j (by omega))
      rw [htr]
      show _ = (⟨none, _, tr ++ (GetMigrationsFromBatch led (b + 1) ++ rollbackSpecTrace led s b)⟩ : MigResult)
      simp [List.append_assoc]

theorem rollback_ok_spec (units : List Migration) (steps : Int) (led : Ledger)
    (hnd : (ledgerNames led).Nodup) (hlb : 1 ≤ GetLastBatch led)
    (hres : ∀ e ∈ led, GetLastBatch led - stepsNorm steps < e.batch →
      ∃ m, lookupUnit units e.migration = some m ∧ m.downErr = none) :
    Rollback units steps led =
      ⟨none, led.filter (fun e => decide (e.batch ≤ GetLastBatch led - stepsNorm steps)),
       rollbackSpecTrace led (stepsNorm steps) (GetLastBatch led)⟩ := by
  have h0 : ¬ GetLastBatch led = 0 := by omega
  simp only [Rollback, h0, if_false]
  rw [rollbackLoop_ok units (stepsNorm steps) (GetLastBatch led) led [] hnd
    (fun e he => batch_le_getLastBatch he) hres]
  simp

/-- C4: for a duplicate-free ledger with `lastBatch >= 1` and any steps
value (`<= 0` treated as 1), when every entry of the processed batches
resolves to a unit whose backward action succeeds, `Rollback` returns the
outcome described by `rollbackSpecTrace`: batch numbers are processed from
`lastBatch` down to `lastBatch - steps + 1` (stopping above 0), each batch's
backward actions run in reverse insertion order (LIFO), and exactly the
processed entries are deleted from the ledger. -/
theorem rollback_lifo_batches (units : List Migration) (steps : Int) (led : Ledger)
    (hnd : (ledgerNames led).Nodup) (hlb : 1 ≤ GetLastBatch led)
    (hres : ∀ e ∈ led, GetLastBatch led - stepsNorm steps < e.batch →
      ∃ m, lookupUnit units e.migration = some m ∧ m.downErr = none) :
    Rollback units steps led =
      ⟨none, led.filter (fun e => decide (e.batch ≤ GetLastBatch led - stepsNorm steps)),
       rollbackSpecTrace led (stepsNorm steps) (GetLastBatch led)⟩ :=
  rollback_ok_spec units steps led hnd hlb hres

/-- Witness for C4: rolling one step back over a two-batch ledger. -/
theorem rollback_lifo_batches_witness :
    ((ledgerNames [⟨"a_mig", 1⟩, ⟨"b_mig", 2⟩, ⟨"c_mig", 2⟩]).Nodup
      ∧ 1 ≤ GetLastBatch [⟨"a_mig", 1⟩, ⟨"b_mig", 2⟩, ⟨"c_mig", 2⟩]
      ∧ (∀ e ∈ ([⟨"a_mig", 1⟩, ⟨"b_mig", 2⟩, ⟨"c_mig", 2⟩] : Ledger),
          GetLastBatch [⟨"a_mig", 1⟩, ⟨"b_mig", 2⟩, ⟨"c_mig", 2⟩] - stepsNorm 1 < e.batch →
          ∃ m, lookupUnit [⟨"a_mig", none, none⟩, ⟨"b_mig", none, none⟩, ⟨"c_mig", none, none⟩]
              e.migration = some m ∧ m.downErr = none))
    ∧ Rollback [⟨"a_mig", none, none⟩, ⟨"b_mig", none, none⟩, ⟨"c_mig", none, none⟩] 1
        [⟨"a_mig", 1⟩, ⟨"b_mig", 2⟩, ⟨"c_mig", 2⟩] =
      ⟨none,
       ([⟨"a_mig", 1⟩, ⟨"b_mig", 2⟩, ⟨"c_mig", 2⟩] : Ledger).filter
         (fun e => decide (e.batch ≤
           GetLastBatch [⟨"a_mig", 1⟩, ⟨"b_mig", 2⟩, ⟨"c_mig", 2⟩] - stepsNorm 1)),
       rollbackSpecTrace [⟨"a_mig", 1⟩, ⟨"b_mig", 2⟩, ⟨"c_mig", 2⟩] (stepsNorm 1)
         (GetLastBatch [⟨"a_mig", 1⟩, ⟨"b_mig", 2⟩, ⟨"c_mig", 2⟩])⟩ :=
  ⟨⟨by decide, by decide,
    fun e he _ => by
      simp only [List.mem_cons, List.not_mem_nil, or_false] at he
      rcases he with rfl | rfl | rfl <;> exact ⟨_, rfl, rfl⟩⟩,
   rollback_lifo_batches
     [⟨"a_mig", none, none⟩, ⟨"b_mig", none, none⟩, ⟨"c_mig", none, none⟩] 1
     [⟨"a_mig", 1⟩, ⟨"b_mig", 2⟩, ⟨"c_mig", 2⟩] (by decide) (by decide)
     (fun e he _ => by
      simp only [List.mem_cons, List.not_mem_nil, or_false] at he
      rcases he with rfl | rfl | rfl <;> exact ⟨_, rfl, rfl⟩)⟩

theorem mem_rollbackSpecTrace {led : Ledger} :
    ∀ {steps b : Nat} {x : String}, x ∈ rollbackSpecTrace led steps b →
      ∃ e ∈ led, e.migration = x ∧ e.batch ≤ b ∧ 1 ≤ e.batch
  | 0, _, _, hx => absurd hx (List.not_mem_nil _)
  | _ + 1, 0, _, hx => absurd hx (List.not_mem_nil _)
  | steps + 1, b + 1, x, hx => by
    rw [rollbackSpecTrace] at hx
    rcases List.mem_append.mp hx with hx | hx
    · obtain ⟨e, he, hm, hb⟩ := mem_getMigrationsFromBatch.mp hx
      exact ⟨e, he, hm, by omega, by omega⟩
    · obtain ⟨e, he, hm, hb, h1⟩ := mem_rollbackSpecTrace hx
      exact ⟨e, he, hm, by omega, h1⟩

theorem nodup_rollbackSpecTrace {led : Ledger} (hnd : (ledgerNames led).Nodup) :
    ∀ (steps b : Nat), (rollbackSpecTrace led steps b).Nodup
  | 0, _ => List.nodup_nil
  | _ + 1, 0 => List.nodup_nil
  | steps + 1, b + 1 => by
    rw [rollbackSpecTrace, List.nodup_append]
    refine ⟨?_, nodup_rollbackSpecTrace hnd steps b, ?_⟩
    · rw [GetMigrationsFromBatch, List.map_reverse, List.nodup_reverse]
      exact ((List.filter_sublist _).map _).nodup hnd
    · intro x hx1 hx2
      obtain ⟨e1, he1, hm1, hb1⟩ := mem_getMigrationsFromBatch.mp hx1
      obtain ⟨e2, he2, hm2, hb2, _⟩ := mem_rollbackSpecTrace hx2
      have heq : e1 = e2 := nodup_names_inj hnd he1 he2 (hm1.trans hm2.symm)
      rw [heq] at hb1
      omega

theorem filter_chunk_append (led : Ledger) (b : Nat) (hnd : (ledgerNames led).Nodup)
    (a' : List String) :
    (led.filter (fun e => e.batch != b)).filter (fun e => !a'.contains e.migration) =
      led.filter (fun e => !((GetMigrationsFromBatch led b) ++ a').contains e.migration) := by
  rw [List.filter_filter]
  apply List.filter_congr
  intro e he
  by_cases h1 : e.batch = b
  · have hmem : e.migration ∈ GetMigrationsFromBatch led b :=
      mem_getMigrationsFromBatch.mpr ⟨e, he, rfl, h1⟩
    simp [List.contains, h1, hmem]
  · have hmem : e.migration ∉ GetMigrationsFromBatch led b := by
      intro hc
      obtain ⟨e', he', hm', hb'⟩ := mem_getMigrationsFromBatch.mp hc
      exact h1 ((nodup_names_inj hnd he he' hm'.symm) ▸ hb')
    simp [List.contains, h1, hmem]

theorem rollbackLoop_missing (units : List Migration) (steps : Nat) :
    ∀ (batch : Nat) (led : Ledger) (tr : List String),
      (ledgerNames led).Nodup →
      ∀ (p : List String) (n : String) (q : List String),
        rollbackSpecTrace led steps batch = p ++ n :: q →
        (∀ x ∈ p, ∃ m, lookupUnit units x = some m ∧ m.downErr = none) →
        lookupUnit units n = none →
        rollbackLoop units steps batch led tr =
          ⟨some ("migration file not found: " ++ n),
           led.filter (fun e => !p.contains e.migration), tr ++ p⟩ := by
  induction steps with
  | zero =>
    intro batch led tr _ p n q hsplit _ _
    exact absurd hsplit (by simp [rollbackSpecTrace])
  | succ s ih =>
    intro batch led tr hnd p n q hsplit hok hn
    cases batch with
    | zero => exact absurd hsplit (by simp [rollbackSpecTrace])
    | succ b =>
      rw [rollbackSpecTrace] at hsplit
      rcases List.append_eq_append_iff.mp hsplit with ⟨a', hp, hrest⟩ | ⟨c', hnames, hcq⟩
      · -- the whole batch-(b+1) chunk is processed; the missing name comes later
        have hoknames : ∀ x ∈ GetMigrationsFromBatch led (b + 1),
            ∃ m, lookupUnit units x = some m ∧ m.downErr = none :=
          fun x hx => hok x (hp ▸ List.mem_append_left _ hx)
        simp only [rollbackLoop]
        rw [rollbackNames_ok units _ led tr hoknames]
        simp only
        rw [filter_not_batchNames led (b + 1) hnd]
        have hnd' : (ledgerNames (led.filter (fun e => e.batch != b + 1))).Nodup :=
          ((List.filter_sublist _).map _).nodup hnd
        have hsplit' : rollbackSpecTrace (led.filter (fun e => e.batch != b + 1)) s b =
            a' ++ n :: q := by
          rw [rollbackSpecTrace_congr led _ s b
            (fun j hj => getFromBatch_filter_ne led (b + 1) j (by omega))]
          exact hrest
        rw [ih b _ _ hnd' a' n q hsplit'
          (fun x hx => hok x (hp ▸ List.mem_append_right _ hx)) hn]
        rw [filter_chunk_append led (b + 1) hnd a']
        rw [hp]
        simp [List.append_assoc]
      · -- the missing name sits inside the batch-(b+1) chunk
        cases c' with
        | nil =>
          -- the chunk is exactly p; the missing name heads the rest
          simp only [List.append_nil] at hnames
          simp only [List.nil_append] at hcq
          have hoknames : ∀ x ∈ GetMigrationsFromBatch led (b + 1),
              ∃ m, lookupUnit units x = some m ∧ m.downErr = none :=
            fun x hx => hok x (hnames ▸ hx)
          simp only [rollbackLoop]
          rw [rollbackNames_ok units _ led tr hoknames]
          simp only
          rw [filter_not_batchNames led (b + 1) hnd]
          have hnd' : (ledgerNames (led.filter (fun e => e.batch != b + 1))).Nodup :=
            ((List.filter_sublist _).map _).nodup hnd
          have hsplit' : rollbackSpecTrace (led.filter (fun e => e.batch != b + 1)) s b =
              [] ++ n :: q := by
            rw [rollbackSpecTrace_congr led _ s b
              (fun j hj => getFromBatch_filter_ne led (b + 1) j (by omega))]
            simpa using hcq.symm
          rw [ih b _ _ hnd' [] n q hsplit' (by simp) hn]
          have := filter_chunk_append led (b + 1) hnd []
          simp only [List.append_nil] at this
          rw [this, hnames]
          simp
        | cons n' q₁ =>
          have hn' : n' = n := by
            have := congrArg (fun l => l.head?) hcq
            simpa using this.symm
          subst hn'
          have hchunk : GetMigrationsFromBatch led (b + 1) = p ++ n' :: q₁ := hnames
          simp only [rollbackLoop]
          rw [hchunk, rollbackNames_missing units p n' q₁ led tr hok hn]

/-- C7: when the rollback processing order reaches a ledger-recorded name
with no matching supplied unit, `Rollback` returns an error naming that
migration, executes no further backward action in the call (the trace stops
just before the unresolved name, whatever batches or steps remain), and the
unresolved unit's ledger entry stays in place. -/
theorem rollback_unresolved_aborts (units : List Migration) (steps : Int) (led : Ledger)
    (hnd : (ledgerNames led).Nodup)
    (p : List String) (n : String) (q : List String)
    (hsplit : rollbackSpecTrace led (stepsNorm steps) (GetLastBatch led) = p ++ n :: q)
    (hok : ∀ x ∈ p, ∃ m, lookupUnit units x = some m ∧ m.downErr = none)
    (hn : lookupUnit units n = none) :
    (Rollback units steps led).err = some ("migration file not found: " ++ n)
    ∧ (Rollback units steps led).trace = p
    ∧ (Rollback units steps led).ledger = led.filter (fun e => !p.contains e.migration)
    ∧ ∃ e ∈ (Rollback units steps led).ledger, e.migration = n := by
  have hlb : ¬ GetLastBatch led = 0 := by
    intro h0
    rw [h0] at hsplit
    cases hs : stepsNorm steps with
    | zero => rw [hs] at hsplit; simp [rollbackSpecTrace] at hsplit
    | succ k => rw [hs] at hsplit; simp [rollbackSpecTrace] at hsplit
  simp only [Rollback, hlb, if_false]
  rw [rollbackLoop_missing units (stepsNorm steps) (GetLastBatch led) led [] hnd
    p n q hsplit hok hn]
  refine ⟨rfl, by simp, rfl, ?_⟩
  have hnmem : n ∈ rollbackSpecTrace led (stepsNorm steps) (GetLastBatch led) := by
    rw [hsplit]; simp
  obtain ⟨e, he, hm, _, _⟩ := mem_rollbackSpecTrace hnmem
  refine ⟨e, ?_, hm⟩
  rw [List.mem_filter]
  refine ⟨he, ?_⟩
  have hnodupT := nodup_rollbackSpecTrace hnd (stepsNorm steps) (GetLastBatch led)
  rw [hsplit] at hnodupT
  have hnp : n ∉ p := by
    intro hc
    rcases List.nodup_append.mp hnodupT with ⟨_, _, hdisj⟩
    exact hdisj hc (by simp)
  rw [hm]
  simp [List.contains, hnp]

/-- Witness for C7: a two-step rollback whose second batch rolls back fine
but whose first batch's name has no supplied unit. -/
theorem rollback_unresolved_aborts_witness :
    ((ledgerNames [⟨"a_mig", 1⟩, ⟨"b_mig", 2⟩]).Nodup
      ∧ rollbackSpecTrace [⟨"a_mig", 1⟩, ⟨"b_mig", 2⟩] (stepsNorm 2)
          (GetLastBatch [⟨"a_mig", 1⟩, ⟨"b_mig", 2⟩]) = ["b_mig"] ++ "a_mig" :: []
      ∧ (∀ x ∈ (["b_mig"] : List String),
          ∃ m, lookupUnit [⟨"b_mig", none, none⟩] x = some m ∧ m.downErr = none)
      ∧ lookupUnit [⟨"b_mig", none, none⟩] "a_mig" = none)
    ∧ ((Rollback [⟨"b_mig", none, none⟩] 2 [⟨"a_mig", 1⟩, ⟨"b_mig", 2⟩]).err =
          some ("migration file not found: " ++ "a_mig")
      ∧ (Rollback [⟨"b_mig", none, none⟩] 2 [⟨"a_mig", 1⟩, ⟨"b_mig", 2⟩]).trace = ["b_mig"]
      ∧ (Rollback [⟨"b_mig", none, none⟩] 2 [⟨"a_mig", 1⟩, ⟨"b_mig", 2⟩]).ledger =
          ([⟨"a_mig", 1⟩, ⟨"b_mig", 2⟩] : Ledger).filter
            (fun e => !(["b_mig"] : List String).contains e.migration)
      ∧ ∃ e ∈ (Rollback [⟨"b_mig", none, none⟩] 2 [⟨"a_mig", 1⟩, ⟨"b_mig", 2⟩]).ledger,
          e.migration = "a_mig") :=
  ⟨⟨by decide, by decide,
    fun x hx => by
      simp only [List.mem_singleton] at hx
      subst hx
      exact ⟨_, rfl, rfl⟩,
    rfl⟩,
   rollback_unresolved_aborts [⟨"b_mig", none, none⟩] 2 [⟨"a_mig", 1⟩, ⟨"b_mig", 2⟩]
     (by decide) ["b_mig"] "a_mig" [] (by decide)
     (fun x hx => by
       simp only [List.mem_singleton] at hx
       subst hx
       exact ⟨_, rfl, rfl⟩)
     rfl⟩

/-- C9: `Reset(units)` returns exactly the result of
`Rollback(units, lastBatch)` (same error, same ledger deletions, same
backward-action sequence), and when the ledger's names are duplicate-free,
its batch numbers positive, and every recorded name resolves to a unit whose
backward action succeeds, the ledger afterwards is empty. -/
theorem reset_equals_full_rollback (units : List Migration) (led : Ledger)
    (hnd : (ledgerNames led).Nodup)
    (hpos : ∀ e ∈ led, 1 ≤ e.batch)
    (hres : ∀ e ∈ led, ∃ m, lookupUnit units e.migration = some m ∧ m.downErr = none) :
    Reset units led = Rollback units (GetLastBatch led : Int) led
    ∧ (Reset units led).err = none
    ∧ (Reset units led).ledger = [] := by
  by_cases h0 : GetLastBatch led = 0
  · have hled : led = [] := by
      cases led with
      | nil => rfl
      | cons e rest =>
        exfalso
        have h1 := hpos e (by simp)
        have h2 := @batch_le_getLastBatch (e :: rest) e (by simp)
        omega
    subst hled
    exact ⟨rfl, rfl, rfl⟩
  · have hlb : 1 ≤ GetLastBatch led := by omega
    have heq : Reset units led = Rollback units (GetLastBatch led : Int) led := by
      simp [Reset, h0]
    have hsn : stepsNorm (GetLastBatch led : Int) = GetLastBatch led := by
      rw [stepsNorm, if_neg (by omega)]
      exact Int.toNat_natCast _
    refine ⟨heq, ?_, ?_⟩
    · rw [heq, rollback_ok_spec units _ led hnd hlb (fun e he _ => hres e he)]
    · rw [heq, rollback_ok_spec units _ led hnd hlb (fun e he _ => hres e he)]
      simp only [hsn, Nat.sub_self]
      apply List.filter_eq_nil_iff.mpr
      intro e he
      have := hpos e he
      simp
      omega

/-- Witness for C9: resetting a two-batch ledger with matching units. -/
theorem reset_equals_full_rollback_witness :
    ((ledgerNames [⟨"a_mig", 1⟩, ⟨"b_mig", 2⟩]).Nodup
      ∧ (∀ e ∈ ([⟨"a_mig", 1⟩, ⟨"b_mig", 2⟩] : Ledger), 1 ≤ e.batch)
      ∧ (∀ e ∈ ([⟨"a_mig", 1⟩, ⟨"b_mig", 2⟩] : Ledger),
          ∃ m, lookupUnit [⟨"a_mig", none, none⟩, ⟨"b_mig", none, none⟩] e.migration = some m
            ∧ m.downErr = none))
    ∧ (Reset [⟨"a_mig", none, none⟩, ⟨"b_mig", none, none⟩] [⟨"a_mig", 1⟩, ⟨"b_mig", 2⟩] =
        Rollback [⟨"a_mig", none, none⟩, ⟨"b_mig", none, none⟩]
          (GetLastBatch [⟨"a_mig", 1⟩, ⟨"b_mig", 2⟩] : Int) [⟨"a_mig", 1⟩, ⟨"b_mig", 2⟩]
      ∧ (Reset [⟨"a_mig", none, none⟩, ⟨"b_mig", none, none⟩] [⟨"a_mig", 1⟩, ⟨"b_mig", 2⟩]).err = none
      ∧ (Reset [⟨"a_mig", none, none⟩, ⟨"b_mig", none, none⟩] [⟨"a_mig", 1⟩, ⟨"b_mig", 2⟩]).ledger = []) :=
  ⟨⟨by decide, by decide,
    fun e he => by
      simp only [List.mem_cons, List.not_mem_nil, or_false] at he
      rcases he with rfl | rfl <;> exact ⟨_, rfl, rfl⟩⟩,
   reset_equals_full_rollback [⟨"a_mig", none, none⟩, ⟨"b_mig", none, none⟩]
     [⟨"a_mig", 1⟩, ⟨"b_mig", 2⟩] (by decide) (by decide)
     (fun e he => by
       simp only [List.mem_cons, List.not_mem_nil, or_false] at he
       rcases he with rfl | rfl <;> exact ⟨_, rfl, rfl⟩)⟩
